import Mathlib

/-!
Verification of the dicom-send gear's core logic against its specification.

The Python sources are shallowly embedded: a DICOM dataset becomes an
association list from (group, element) tags to string values; in-place
mutation becomes explicit dataset passing; `sys.exit(1)` and raised
exceptions become `Except`-style error results; the external `storescu`
subprocess becomes an oracle giving each attempt's (returncode, stderr).
-/

/-- A DICOM tag: (group, element) pair, as used by `pydicom`
tuple-indexed access in `add_private_tag`. -/
abbrev DcmTag := Nat × Nat

/-- An in-memory decoded DICOM dataset, restricted to what the tagging
code touches: a map from tags to element string values.  Represented as
an association list where the most recent write shadows older entries,
matching `pydicom.Dataset.add_new` overwrite semantics. -/
abbrev Dataset := List (DcmTag × String)

/-- `pydicom.Dataset.get(tag)`: the element value stored at `t`, or
`none` when the dataset has no such element. -/
def Dataset.get : Dataset → DcmTag → Option String
  | [], _ => none
  | (t', v) :: rest, t => if t' = t then some v else Dataset.get rest t

/-- `pydicom.Dataset.add_new(tag, "LO", value)`: store `v` at tag `t`,
replacing any previous element at `t` (the new head shadows it). -/
def Dataset.add_new (ds : Dataset) (t : DcmTag) (v : String) : Dataset :=
  (t, v) :: ds

/-- Python `str.lower()` as the locale-independent per-character
lowercase over the string's characters. -/
def pyLower (s : String) : String := String.mk (s.data.map Char.toLower)

/-- The creator-element offsets scanned by `add_private_tag`'s outer
loop: Python `range(0x0010, 0x00FF)`, i.e. 0x10 .. 0xFE. -/
def creatorOffsets : List Nat := (List.range 239).map (fun i => 16 + i)

/-- The element numbers of the data block owned by the creator at
offset `e`: Python `range(elem * 0x100, elem * 0x100 + 0x100)`. -/
def blockIdxs (e : Nat) : List Nat := (List.range 256).map (fun i => e * 256 + i)

/-- Python `value.lower().startswith(tag_value.lower())`, the
case-insensitive already-tagged test in `add_private_tag`. -/
def lowerStartsWith (v tv : String) : Bool :=
  (pyLower tv).data.isPrefixOf (pyLower v).data

/-- Outcome of `add_private_tag` (src/fw_gear_dicom_send/tag_and_transmit.py):
either a slot was returned (with the possibly mutated dataset), or the
outer loop was exhausted.  Exhaustion ends two ways in the source: when
`private_tag` was never assigned the function calls `sys.exit(1)`
(`exit1`); when some matching creator's block was scanned (assigning
`private_tag`) the function falls off the end returning `None`
(`fellThrough`). -/
inductive TagOutcome
  | slot (ds : Dataset) (t : DcmTag)
  | fellThrough
  | exit1
deriving DecidableEq

deriving instance DecidableEq for Except

/-- The inner loop of `add_private_tag` over a matching creator's owned
block: at each element, if the slot is free, write the tag value there
and return the slot; else if the stored value case-insensitively starts
with the tag value, return the slot unchanged; else continue. -/
def scanBlock (ds : Dataset) (g : Nat) (tv : String) : List Nat → Option (Dataset × DcmTag)
  | [] => none
  | i :: rest =>
    match ds.get (g, i) with
    | none => some (ds.add_new (g, i) tv, (g, i))
    | some w =>
      if lowerStartsWith w tv then some (ds, (g, i))
      else scanBlock ds g tv rest

/-- The outer loop of `add_private_tag` over creator offsets.  The
Boolean `assigned` tracks whether the Python local `private_tag` has
been assigned (it is assigned by every inner-loop iteration, and the
inner block list is non-empty whenever entered). -/
def scanOffsets (ds : Dataset) (g : Nat) (id tv : String) : List Nat → Bool → TagOutcome
  | [], assigned => if assigned then .fellThrough else .exit1
  | e :: rest, assigned =>
    match ds.get (g, e) with
    | some v =>
      if pyLower v = pyLower id then
        match scanBlock ds g tv (blockIdxs e) with
        | some r => .slot r.1 r.2
        | none => scanOffsets ds g id tv rest true
      else scanOffsets ds g id tv rest assigned
    | none =>
      .slot ((ds.add_new (g, e) id).add_new (g, e * 256) tv) (g, e * 256)

/-- `add_private_tag(dicom_file, group, identifier, tag_value)` from
src/fw_gear_dicom_send/tag_and_transmit.py lines 183-256 (identical
algorithm in src/tagger.py and src/utils/tag_and_transmit.py). -/
def add_private_tag (ds : Dataset) (g : Nat) (id tv : String) : TagOutcome :=
  scanOffsets ds g id tv creatorOffsets false

/-- The congestion marker substring tested against captured stderr in
`transmit_dicom_file`. -/
def congestionMarker : String := "Temporary Congestion"

/-- Python `needle in hay` substring containment over decoded stderr. -/
def strContainsSub (hay needle : String) : Bool :=
  (List.range (hay.length + 1)).any (fun i => needle.data.isPrefixOf (hay.data.drop i))

/-- One invocation of the body of `transmit_dicom_file`
(src/fw_gear_dicom_send/tag_and_transmit.py lines 139-180), as a
function of the storescu subprocess's exit code and captured stderr:
exit code 0 returns success; otherwise, stderr containing the
congestion marker raises `TemporaryFailure` (modelled as
`Except.error`), and any other stderr returns `False`. -/
def transmit_dicom_file_body (rc : Nat) (err : String) : Except Unit Bool :=
  if rc ≠ 0 then
    if strContainsSub err congestionMarker then Except.error ()
    else Except.ok false
  else Except.ok true

/-- The `@backoff.on_exception(backoff.expo, TemporaryFailure, max_time=60)`
decorator: retry the attempt while it raises, until the elapsed-time
budget runs out; `fuel` is the number of retries the 60s budget still
allows, and when it reaches zero the last attempt's exception
propagates to the caller. -/
def backoffOnException (attempt : Nat → Except Unit Bool) : Nat → Nat → Except Unit Bool
  | 0, k => attempt k
  | fuel + 1, k =>
    match attempt k with
    | Except.ok b => Except.ok b
    | Except.error _ => backoffOnException attempt fuel (k + 1)

/-- The decorated `transmit_dicom_file`: the per-attempt (returncode,
stderr) pairs of the external storescu tool are supplied as an oracle
`attempts`, and the backoff wrapper drives repeated attempts. -/
def transmit_dicom_file (attempts : Nat → Nat × String) (fuel : Nat) : Except Unit Bool :=
  backoffOnException (fun k => transmit_dicom_file_body (attempts k).1 (attempts k).2) fuel 0

/-- One file processed by `run` in src/fw_gear_dicom_send/tag_and_transmit.py:
its decoded dataset and the oracle of storescu attempt outcomes for it. -/
structure WorkFile where
  ds : Dataset
  attempts : Nat → Nat × String

/-- The dataset `run` continues with after `add_private_tag`: on
`sys.exit(1)` there is none; when the function falls through returning
`None` no element was written, so the original dataset stands; on a
returned slot the mutated dataset stands. -/
def tagResultDs (f : WorkFile) (g : Nat) (id tv : String) : Option Dataset :=
  match add_private_tag f.ds g id tv with
  | TagOutcome.exit1 => none
  | TagOutcome.fellThrough => some f.ds
  | TagOutcome.slot d _ => some d

/-- The per-file loop of `run` (src/fw_gear_dicom_send/tag_and_transmit.py
lines 75-111): count the file as present, tag it (aborting the whole
run if tagging calls `sys.exit(1)`), skip transmission when
`SOPClassUID` (tag (0x0008, 0x0016)) is absent or empty, otherwise
transmit with backoff, treating a propagated `TemporaryFailure` as not
transmitted, and continue with the next file. -/
def runLoop (fuel : Nat) (g : Nat) (id tv : String) :
    List WorkFile → Nat → Nat → Except Unit (Nat × Nat)
  | [], present, sent => Except.ok (present, sent)
  | f :: rest, present, sent =>
    match tagResultDs f g id tv with
    | none => Except.error ()
    | some ds1 =>
      match ds1.get (8, 22) with
      | none => runLoop fuel g id tv rest (present + 1) sent
      | some s =>
        if s.isEmpty then runLoop fuel g id tv rest (present + 1) sent
        else
          match transmit_dicom_file f.attempts fuel with
          | Except.ok b => runLoop fuel g id tv rest (present + 1) (if b then sent + 1 else sent)
          | Except.error _ => runLoop fuel g id tv rest (present + 1) sent

/-- The status computation of `generate_list`
(src/utils/report_generator.py lines 107-112). -/
def generate_list_status (present sent : Nat) : String :=
  if present > sent then "Incomplete"
  else if present < sent then "Error"
  else "Complete"

/-- Python exceptions relevant to `is_dcm`'s `try` clause. -/
inductive PyExc
  | nameError
  | attrError
  | typeError
deriving DecidableEq

/-- The per-keyword loop of `is_dcm`
(src/fw_gear_dicom_send/tag_and_transmit.py lines 31-38).  The loop
body evaluates `Tag(tag_for_keyword(key))`, but the module imports
`keyword_for_tag` and never binds the name `tag_for_keyword`, so every
iteration raises `NameError` before anything else, and the
`except (AttributeError, TypeError)` clause does not catch it. -/
def is_dcm_loop (num_pub_tags : Nat) : List String → Except PyExc Nat
  | [] => Except.ok num_pub_tags
  | _key :: _rest => Except.error PyExc.nameError

/-- `is_dcm(dcm)` (src/fw_gear_dicom_send/tag_and_transmit.py lines
22-43), as a function of the dataset's decodable keyword list
`dcm.dir()`: run the counting loop, then accept when more than one
public tag was counted. -/
def is_dcm (keys : List String) : Except PyExc Bool :=
  match is_dcm_loop 0 keys with
  | Except.error e => Except.error e
  | Except.ok n => Except.ok (decide (n > 1))

/-- An opened archive object handed to `exit_if_archive_empty`
(src/fw_gear_dicom_send/dicom_send.py lines 61-77), carrying its
members' uncompressed sizes (`zipinfo.file_size` / `tarinfo.size`). -/
inductive ArchiveObj
  | zipFile (fileSizes : List Nat)
  | tarFile (memberSizes : List Nat)
deriving DecidableEq

/-- Total uncompressed member size computed by `exit_if_archive_empty`. -/
def archiveSize : ArchiveObj → Nat
  | ArchiveObj.zipFile s => s.sum
  | ArchiveObj.tarFile s => s.sum

/-- `exit_if_archive_empty`: exit the run (`Except.error`) when the
archive's total member size is zero. -/
def exit_if_archive_empty (a : ArchiveObj) : Except Unit Unit :=
  if archiveSize a = 0 then Except.error () else Except.ok ()

/-- A dicom-send input as classified by content signature in
`prepare_work_dir_contents` (src/fw_gear_dicom_send/dicom_send.py
lines 22-58): a file with a valid zip signature, a file with a valid
tar signature, or anything else treated as a single DICOM file. -/
inductive ArchiveInput
  | zipArchive (memberSizes : List Nat)
  | tarArchive (memberSizes : List Nat)
  | rawFile
deriving DecidableEq

/-- `prepare_work_dir_contents`: check the archive for emptiness and
only then extract; the `Except.ok` payload is the list of member sizes
actually extracted into the working directory, so a fatal exit yields
no extraction at all. -/
def prepare_work_dir_contents : ArchiveInput → Except Unit (List Nat)
  | ArchiveInput.zipArchive sizes =>
    match exit_if_archive_empty (ArchiveObj.zipFile sizes) with
    | Except.error e => Except.error e
    | Except.ok _ => Except.ok sizes
  | ArchiveInput.tarArchive sizes =>
    match exit_if_archive_empty (ArchiveObj.tarFile sizes) with
    | Except.error e => Except.error e
    | Except.ok _ => Except.ok sizes
  | ArchiveInput.rawFile => Except.ok []

/-- The transport-security mode enum `TLSType`
(src/fw_gear_dicom_send/parser.py lines 74-77). -/
inductive TLSType
  | disabled
  | enabled
  | anonymous
deriving DecidableEq

/-- The filesystem state of a configured path: `Path.exists()` and
`Path.is_file()`. -/
structure FsEntry where
  onDisk : Bool
  regular : Bool
deriving DecidableEq

/-- Python truthiness-and chain `p and (p.exists() and p.is_file())`
for an optional key/cert path. -/
def fsEntryOk : Option FsEntry → Bool
  | none => false
  | some f => f.onDisk && f.regular

/-- The fields of `TLSOpt` that `validate` inspects
(src/fw_gear_dicom_send/parser.py lines 84-110). -/
structure TLSOpt where
  enabled : TLSType
  key : Option FsEntry
  cert : Option FsEntry
deriving DecidableEq

/-- `TLSOpt.validate` (src/fw_gear_dicom_send/parser.py lines 100-110),
exactly as written: the guard is
`not (key and key.exists() and key.is_file()) and (cert and cert.exists() and cert.is_file())`,
in which `not` binds only the key conjunct.  A raised `ValueError`
becomes `Except.error`. -/
def TLSOpt.validate (o : TLSOpt) : Except Unit Unit :=
  if o.enabled = TLSType.enabled then
    if !fsEntryOk o.key && fsEntryOk o.cert then Except.error ()
    else Except.ok ()
  else Except.ok ()

/-- Bool form of "the creator offset `e` is occupied by a value that
does not case-insensitively equal the identifier" (the step-2 skip
condition of the allocation scan). -/
def blockedAt (ds : Dataset) (g : Nat) (id : String) (e : Nat) : Bool :=
  match ds.get (g, e) with
  | some w => pyLower w != pyLower id
  | none => false

/-- The captured stderr contains the congestion marker as a substring. -/
def ContainsMarker (err : String) : Prop :=
  ∃ p q : List Char, err.data = p ++ congestionMarker.data ++ q

/-- A dataset whose whole creator range 0x10..0xFE of group 0x0021 is
occupied by values not matching the identifier "Flywheel". -/
def fullNonMatching : Dataset :=
  (List.range 239).map (fun i => ((33, 16 + i), "Not Flywheel"))

/-- Creator "Flywheel" at offset 0x10; its block holds "DICOM Send" at
element 0x1001 while element 0x1000 is free. -/
def freeBeforeTaggedDs : Dataset :=
  [((33, 16), "Flywheel"), ((33, 4097), "DICOM Send")]

/-- Creator "Flywheel" at offset 0x10; its block is already tagged at
its first element 0x1000. -/
def alreadyTaggedDs : Dataset :=
  [((33, 16), "Flywheel"), ((33, 4096), "DICOM Send")]

/-- A staged file whose storescu invocations always exit non-zero with
congestion-marked stderr. -/
def transientWf : WorkFile :=
  ⟨[((8, 22), "1.2.840.10008.5.1.4.1.1.4")], fun _ => (1, "storescu Temporary Congestion error")⟩

/-- A staged file that tags and transmits successfully first try. -/
def okFile : WorkFile :=
  ⟨[((8, 22), "1.2.840.10008.5.1.4.1.1.4")], fun _ => (0, "")⟩

theorem Dataset.get_add_same (ds : Dataset) (t : DcmTag) (v : String) :
    (ds.add_new t v).get t = some v := by
  simp [Dataset.add_new, Dataset.get]

theorem Dataset.get_add_other (ds : Dataset) (t t' : DcmTag) (v : String) (h : t ≠ t') :
    (ds.add_new t v).get t' = ds.get t' := by
  simp [Dataset.add_new, Dataset.get, h]

theorem blockedAt_spec (ds : Dataset) (g : Nat) (id : String) (e : Nat)
    (h : blockedAt ds g id e = true) :
    ∃ w, ds.get (g, e) = some w ∧ pyLower w ≠ pyLower id := by
  unfold blockedAt at h
  cases hg : ds.get (g, e) with
  | none => rw [hg] at h; cases h
  | some w =>
    rw [hg] at h
    exact ⟨w, rfl, bne_iff_ne.mp h⟩

theorem scanOffsets_all_blocked (ds : Dataset) (g : Nat) (id tv : String) :
    ∀ (offs : List Nat) (a : Bool), (∀ e ∈ offs, blockedAt ds g id e = true) →
      scanOffsets ds g id tv offs a = if a then TagOutcome.fellThrough else TagOutcome.exit1 := by
  intro offs
  induction offs with
  | nil => intro a _; rfl
  | cons e rest ih =>
    intro a h
    obtain ⟨w, hw, hne⟩ := blockedAt_spec ds g id e (h e (by simp))
    simp only [scanOffsets, hw]
    rw [if_neg hne]
    exact ih a (fun x hx => h x (by simp [hx]))

theorem add_private_tag_blocked (ds : Dataset) (g : Nat) (id tv : String)
    (h : ∀ e ∈ creatorOffsets, blockedAt ds g id e = true) :
    add_private_tag ds g id tv = TagOutcome.exit1 := by
  unfold add_private_tag
  rw [scanOffsets_all_blocked ds g id tv creatorOffsets false h]
  rfl

set_option maxRecDepth 40000 in
theorem fullNonMatching_blocked :
    ∀ e ∈ creatorOffsets, blockedAt fullNonMatching 33 "Flywheel" e = true := by
  decide

theorem fullNonMatching_exit :
    add_private_tag fullNonMatching 33 "Flywheel" "DICOM Send" = TagOutcome.exit1 :=
  add_private_tag_blocked _ _ _ _ fullNonMatching_blocked

/-- Claim C2, counterexample: a two-file batch whose first object has
every creator offset 0x10..0xFE occupied by non-matching values makes
the whole per-directory run abort with `sys.exit(1)` (`Except.error`);
the second, perfectly healthy file is never processed, refuting
"processing of the other files in the batch continues (the run is not
aborted)". -/
theorem exhaustion_aborts_batch_cex :
    runLoop 1 33 "Flywheel" "DICOM Send"
      [⟨fullNonMatching, fun _ => (0, "")⟩, ⟨[], fun _ => (0, "")⟩] 0 0 = Except.error () := by
  simp [runLoop, tagResultDs, fullNonMatching_exit]

/-- Claim C2 (amended): for an object in which every creator-element
offset 0x10..0xFE of the group is occupied by a value that does not
case-insensitively equal the identifier, `add_private_tag` terminates
with the allocation-exhaustion exit (`sys.exit(1)`, not an infinite
loop) — but that exit aborts the whole run: the per-file loop returns
the fatal error and no sibling file in the batch is processed. -/
theorem add_private_tag_exhaustion_aborts_run (ds : Dataset) (g : Nat) (id tv : String)
    (h : ∀ e ∈ creatorOffsets, blockedAt ds g id e = true) :
    add_private_tag ds g id tv = TagOutcome.exit1 ∧
    ∀ (att : Nat → Nat × String) (rest : List WorkFile) (fuel present sent : Nat),
      runLoop fuel g id tv (⟨ds, att⟩ :: rest) present sent = Except.error () := by
  have h1 := add_private_tag_blocked ds g id tv h
  refine ⟨h1, fun att rest fuel present sent => ?_⟩
  simp [runLoop, tagResultDs, h1]

/-- Witness for the amended C2 theorem at a concrete exhausted object. -/
theorem add_private_tag_exhaustion_aborts_run_witness :
    add_private_tag fullNonMatching 33 "Flywheel" "DICOM Send" = TagOutcome.exit1 ∧
    runLoop 2 33 "Flywheel" "DICOM Send"
      [⟨fullNonMatching, fun _ => (1, "x")⟩] 5 7 = Except.error () :=
  have h := add_private_tag_exhaustion_aborts_run fullNonMatching 33 "Flywheel" "DICOM Send"
    fullNonMatching_blocked
  ⟨h.1, h.2 _ [] 2 5 7⟩

theorem backoff_all_error (att : Nat → Except Unit Bool)
    (h : ∀ k, att k = Except.error ()) :
    ∀ fuel k, backoffOnException att fuel k = Except.error () := by
  intro fuel
  induction fuel with
  | zero => intro k; simp [backoffOnException, h k]
  | succ n ih =>
    intro k
    simp only [backoffOnException, h k]
    exact ih (k + 1)

/-- Claim C4: a file whose storescu attempts all raise the transient
(congestion-marked) failure is, once the backoff budget is exhausted,
recorded as not transmitted: the per-file loop catches the propagated
`TemporaryFailure`, leaves the sent count unchanged, raises nothing
(the result is exactly the continuation), and proceeds with the next
file of the batch. -/
theorem run_transient_budget_exhaustion (fuel g : Nat) (id tv : String)
    (f : WorkFile) (rest : List WorkFile) (present sent : Nat) (ds1 : Dataset) (t : DcmTag)
    (htag : add_private_tag f.ds g id tv = TagOutcome.slot ds1 t)
    (htransient : ∀ k, transmit_dicom_file_body (f.attempts k).1 (f.attempts k).2 = Except.error ()) :
    runLoop fuel g id tv (f :: rest) present sent = runLoop fuel g id tv rest (present + 1) sent := by
  have hb : transmit_dicom_file f.attempts fuel = Except.error () :=
    backoff_all_error _ htransient fuel 0
  simp only [runLoop, tagResultDs, htag]
  cases hget : ds1.get (8, 22) with
  | none => rfl
  | some s =>
    by_cases he : s.isEmpty
    · simp [he]
    · simp [he, hb]

/-- Witness for C4 at a concrete always-congested file. -/
theorem run_transient_budget_exhaustion_witness :
    runLoop 3 33 "Flywheel" "DICOM Send" [transientWf] 0 0 =
      runLoop 3 33 "Flywheel" "DICOM Send" [] 1 0 :=
  run_transient_budget_exhaustion 3 33 "Flywheel" "DICOM Send" transientWf [] 0 0
    [((33, 4096), "DICOM Send"), ((33, 16), "Flywheel"), ((8, 22), "1.2.840.10008.5.1.4.1.1.4")]
    (33, 4096) (by decide) (fun _ => rfl)

theorem strContainsSub_iff (hay needle : String) :
    strContainsSub hay needle = true ↔ ∃ p q : List Char, hay.data = p ++ needle.data ++ q := by
  unfold strContainsSub
  rw [List.any_eq_true]
  constructor
  · rintro ⟨i, _, hpref⟩
    rw [List.isPrefixOf_iff_prefix] at hpref
    obtain ⟨q, hq⟩ := hpref
    refine ⟨hay.data.take i, q, ?_⟩
    conv_lhs => rw [← List.take_append_drop i hay.data, ← hq]
    rw [List.append_assoc]
  · rintro ⟨p, q, hpq⟩
    refine ⟨p.length, ?_, ?_⟩
    · rw [List.mem_range]
      have hlen : hay.length = hay.data.length := rfl
      rw [hlen, hpq]
      simp
      omega
    · rw [List.isPrefixOf_iff_prefix]
      refine ⟨q, ?_⟩
      rw [hpq, List.append_assoc, List.drop_left]

theorem containsMarker_iff (err : String) :
    ContainsMarker err ↔ strContainsSub err congestionMarker = true :=
  (strContainsSub_iff err congestionMarker).symm

/-- Claim C5: `transmit_dicom_file`'s body returns success exactly for
exit code 0; on a non-zero exit code it raises the transient failure
exactly when the captured stderr contains the congestion marker
substring, and otherwise returns `False` without raising. -/
theorem transmit_classification (rc : Nat) (err : String) :
    (transmit_dicom_file_body rc err = Except.ok true ↔ rc = 0) ∧
    (rc ≠ 0 →
      ((transmit_dicom_file_body rc err = Except.error ()) ↔ ContainsMarker err) ∧
      (¬ ContainsMarker err → transmit_dicom_file_body rc err = Except.ok false)) := by
  unfold transmit_dicom_file_body
  by_cases h0 : rc = 0
  · simp [h0]
  · rw [if_pos h0]
    refine ⟨?_, fun _ => ⟨?_, ?_⟩⟩
    · cases hcon : strContainsSub err congestionMarker <;> simp [h0]
    · rw [containsMarker_iff]
      cases hcon : strContainsSub err congestionMarker <;> simp
    · rw [containsMarker_iff]
      cases hcon : strContainsSub err congestionMarker <;> simp

/-- Witness for C5: a congested stderr raises; exit code 0 succeeds. -/
theorem transmit_classification_witness :
    transmit_dicom_file_body 1 "a Temporary Congestion b" = Except.error () ∧
    transmit_dicom_file_body 0 "x" = Except.ok true :=
  ⟨((transmit_classification 1 "a Temporary Congestion b").2 (by decide)).1.mpr
      ⟨"a ".data, " b".data, by decide⟩,
    (transmit_classification 0 "x").1.mpr rfl⟩

/-- Claim C6: the ledger row status is `Incomplete` exactly when
present exceeds sent, `Error` exactly when sent exceeds present, and
`Complete` exactly when they agree; the computation is a total
function of the two counts, so it never raises. -/
theorem generate_list_status_spec (p s : Nat) :
    (generate_list_status p s = "Incomplete" ↔ s < p) ∧
    (generate_list_status p s = "Error" ↔ p < s) ∧
    (generate_list_status p s = "Complete" ↔ p = s) := by
  unfold generate_list_status
  rcases Nat.lt_trichotomy s p with h | h | h
  · rw [if_pos h]
    exact ⟨⟨fun _ => h, fun _ => rfl⟩,
      ⟨fun hh => absurd hh (by decide), fun hh => absurd hh (by omega)⟩,
      ⟨fun hh => absurd hh (by decide), fun hh => absurd hh (by omega)⟩⟩
  · rw [if_neg (by omega), if_neg (by omega)]
    exact ⟨⟨fun hh => absurd hh (by decide), fun hh => absurd hh (by omega)⟩,
      ⟨fun hh => absurd hh (by decide), fun hh => absurd hh (by omega)⟩,
      ⟨fun _ => by omega, fun _ => rfl⟩⟩
  · rw [if_neg (by omega), if_pos h]
    exact ⟨⟨fun hh => absurd hh (by decide), fun hh => absurd hh (by omega)⟩,
      ⟨fun _ => h, fun _ => rfl⟩,
      ⟨fun hh => absurd hh (by decide), fun hh => absurd hh (by omega)⟩⟩

/-- Claim C7 (code bug): `is_dcm` should accept a dataset exposing at
least two keywords whose tags lie outside groups ≤ 2 and never raise,
but the loop body's `tag_for_keyword` is never imported (the module
imports `keyword_for_tag` instead), so any dataset with at least one
decodable keyword raises `NameError`, which the
`except (AttributeError, TypeError)` clause does not catch; only the
zero-keyword dataset escapes, as a rejection. -/
theorem is_dcm_raises_nameerror :
    is_dcm ["PatientName", "PatientID", "StudyDate"] = Except.error PyExc.nameError ∧
    is_dcm ["PatientName", "PatientID", "StudyDate"] ≠ Except.ok true ∧
    is_dcm [] = Except.ok false := by
  decide

/-- Claim C8: an input with a valid zip or tar signature whose members'
uncompressed sizes sum to zero fails fatally, and the failure happens
before extraction — the error result carries no extracted member. -/
theorem empty_archive_rejected (sizes : List Nat) (h : sizes.sum = 0) :
    prepare_work_dir_contents (ArchiveInput.zipArchive sizes) = Except.error () ∧
    prepare_work_dir_contents (ArchiveInput.tarArchive sizes) = Except.error () := by
  simp [prepare_work_dir_contents, exit_if_archive_empty, archiveSize, h]

/-- Witness for C8 at a three-member all-empty archive. -/
theorem empty_archive_rejected_witness :
    List.sum [0, 0, 0] = 0 ∧
    prepare_work_dir_contents (ArchiveInput.zipArchive [0, 0, 0]) = Except.error () ∧
    prepare_work_dir_contents (ArchiveInput.tarArchive [0, 0, 0]) = Except.error () :=
  ⟨by decide, empty_archive_rejected [0, 0, 0] (by decide)⟩

/-- Claim C9 (code bug): with transport security "enabled", validation
must reject every configuration missing the key file or the cert file;
but in `TLSOpt.validate` the `not` binds only the key conjunct, so a
configuration with the key present and the cert missing — and even one
with both missing — passes validation (`Except.ok`), contradicting the
method's own error message "Need both a keyfile and certfile to enable
TLS"; only the missing-key-with-present-cert combination is rejected. -/
theorem tls_validate_accepts_missing_material :
    TLSOpt.validate ⟨TLSType.enabled, some ⟨true, true⟩, none⟩ = Except.ok () ∧
    TLSOpt.validate ⟨TLSType.enabled, none, none⟩ = Except.ok () ∧
    TLSOpt.validate ⟨TLSType.enabled, none, some ⟨true, true⟩⟩ = Except.error () := by
  decide

theorem runLoop_counts_mono :
    ∀ (files : List WorkFile) (fuel g : Nat) (id tv : String) (present sent p s : Nat),
      sent ≤ present → runLoop fuel g id tv files present sent = Except.ok (p, s) → s ≤ p := by
  intro files
  induction files with
  | nil =>
    intro fuel g id tv present sent p s hle h
    simp only [runLoop, Except.ok.injEq, Prod.mk.injEq] at h
    omega
  | cons f rest ih =>
    intro fuel g id tv present sent p s hle h
    simp only [runLoop] at h
    split at h
    · cases h
    · split at h
      · exact ih _ _ _ _ _ _ _ _ (by omega) h
      · split at h
        · exact ih _ _ _ _ _ _ _ _ (by omega) h
        · split at h
          · split at h
            · exact ih _ _ _ _ _ _ _ _ (by omega) h
            · exact ih _ _ _ _ _ _ _ _ (by omega) h
          · exact ih _ _ _ _ _ _ _ _ (by omega) h

/-- Claim C10: every execution of the per-directory tag-and-transmit
loop that returns counts returns `dicoms_sent ≤ dicoms_present`: each
file increments present exactly once and sent at most once in the same
iteration, so a single run never produces the anomalous `Error` ledger
status by itself. -/
theorem run_sent_le_present (fuel g : Nat) (id tv : String) (files : List WorkFile)
    (p s : Nat) (h : runLoop fuel g id tv files 0 0 = Except.ok (p, s)) : s ≤ p :=
  runLoop_counts_mono files fuel g id tv 0 0 p s (Nat.le_refl 0) h

/-- Witness for C10 at a one-file batch that transmits successfully. -/
theorem run_sent_le_present_witness :
    runLoop 2 33 "Flywheel" "DICOM Send" [okFile] 0 0 = Except.ok (1, 1) ∧ 1 ≤ 1 :=
  have h : runLoop 2 33 "Flywheel" "DICOM Send" [okFile] 0 0 = Except.ok (1, 1) := by decide
  ⟨h, run_sent_le_present 2 33 "Flywheel" "DICOM Send" [okFile] 1 1 h⟩

theorem lowerStartsWith_refl (s : String) : lowerStartsWith s s = true :=
  List.isPrefixOf_iff_prefix.mpr (List.prefix_refl _)

theorem mem_blockIdxs (e i : Nat) : i ∈ blockIdxs e ↔ ∃ k, k < 256 ∧ i = e * 256 + k := by
  simp [blockIdxs, List.mem_map, List.mem_range, eq_comm]

theorem blockIdxs_nodup (e : Nat) : (blockIdxs e).Nodup :=
  List.Nodup.map (fun a b h => by omega) (List.nodup_range 256)

theorem blockIdxs_head (e : Nat) : ∃ l, blockIdxs e = (e * 256) :: l := by
  rw [blockIdxs, show (256 : Nat) = 255 + 1 from rfl, List.range_succ_eq_map,
    List.map_cons, Nat.add_zero]
  exact ⟨_, rfl⟩

theorem creatorOffsets_mem_bounds : ∀ e ∈ creatorOffsets, 16 ≤ e ∧ e < 255 := by
  intro e he
  simp only [creatorOffsets, List.mem_map, List.mem_range] at he
  obtain ⟨i, hi, rfl⟩ := he
  omega

theorem creatorOffsets_nodup : creatorOffsets.Nodup :=
  List.Nodup.map (fun a b h => by omega) (List.nodup_range 239)

theorem scanBlock_head_tagged (ds : Dataset) (g : Nat) (tv : String) (e : Nat)
    (h : ds.get (g, e * 256) = some tv) :
    scanBlock ds g tv (blockIdxs e) = some (ds, (g, e * 256)) := by
  obtain ⟨l, hl⟩ := blockIdxs_head e
  rw [hl]
  simp [scanBlock, h, lowerStartsWith_refl]

theorem scanBlock_append (ds : Dataset) (g : Nat) (tv : String) (pre l : List Nat)
    (h : ∀ j ∈ pre, ∃ w, ds.get (g, j) = some w ∧ lowerStartsWith w tv = false) :
    scanBlock ds g tv (pre ++ l) = scanBlock ds g tv l := by
  induction pre with
  | nil => rfl
  | cons j rest ih =>
    obtain ⟨w, hw, hsw⟩ := h j (by simp)
    simp only [List.cons_append, scanBlock, hw]
    rw [if_neg (by simp [hsw])]
    exact ih (fun x hx => h x (by simp [hx]))

theorem scanBlock_none_iff (ds : Dataset) (g : Nat) (tv : String) :
    ∀ idxs : List Nat, scanBlock ds g tv idxs = none ↔
      ∀ i ∈ idxs, ∃ w, ds.get (g, i) = some w ∧ lowerStartsWith w tv = false := by
  intro idxs
  induction idxs with
  | nil => simp [scanBlock]
  | cons i rest ih =>
    cases hg : ds.get (g, i) with
    | none => simp [scanBlock, hg]
    | some w =>
      by_cases hsw : lowerStartsWith w tv = true
      · simp only [scanBlock, hg, if_pos hsw]
        constructor
        · intro hcon; exact Option.noConfusion hcon
        · intro hall
          obtain ⟨w', hw', hsw'⟩ := hall i (by simp)
          rw [hg] at hw'
          injection hw' with hww
          subst hww
          simp [hsw] at hsw'
      · simp only [scanBlock, hg, if_neg hsw, ih]
        constructor
        · intro hall j hj
          rcases List.mem_cons.mp hj with rfl | hj'
          · exact ⟨w, hg, by simpa using hsw⟩
          · exact hall j hj'
        · intro hall j hj
          exact hall j (List.mem_cons_of_mem _ hj)

theorem scanBlock_some_inv (ds : Dataset) (g : Nat) (tv : String) :
    ∀ (idxs : List Nat) (ds' : Dataset) (t : DcmTag),
      scanBlock ds g tv idxs = some (ds', t) →
      ∃ pre i suf, idxs = pre ++ i :: suf ∧
        (∀ j ∈ pre, ∃ w, ds.get (g, j) = some w ∧ lowerStartsWith w tv = false) ∧
        t = (g, i) ∧
        ((ds.get (g, i) = none ∧ ds' = ds.add_new (g, i) tv) ∨
         (∃ w, ds.get (g, i) = some w ∧ lowerStartsWith w tv = true ∧ ds' = ds)) := by
  intro idxs
  induction idxs with
  | nil => intro ds' t h; cases h
  | cons i rest ih =>
    intro ds' t h
    cases hg : ds.get (g, i) with
    | none =>
      simp only [scanBlock, hg, Option.some.injEq, Prod.mk.injEq] at h
      obtain ⟨hds, ht⟩ := h
      exact ⟨[], i, rest, rfl, by simp, ht.symm, Or.inl ⟨hg, hds.symm⟩⟩
    | some w =>
      by_cases hsw : lowerStartsWith w tv = true
      · simp only [scanBlock, hg, if_pos hsw, Option.some.injEq, Prod.mk.injEq] at h
        obtain ⟨hds, ht⟩ := h
        exact ⟨[], i, rest, rfl, by simp, ht.symm, Or.inr ⟨w, hg, hsw, hds.symm⟩⟩
      · simp only [scanBlock, hg, if_neg hsw] at h
        obtain ⟨pre, i', suf, hsplit, hpre, ht, hcase⟩ := ih ds' t h
        refine ⟨i :: pre, i', suf, by simp [hsplit], ?_, ht, hcase⟩
        intro j hj
        rcases List.mem_cons.mp hj with rfl | hj'
        · exact ⟨w, hg, by simpa using hsw⟩
        · exact hpre j hj'

theorem scanOffsets_append (ds : Dataset) (g : Nat) (id tv : String)
    (pre l : List Nat) (fl : Bool)
    (h : ∀ x ∈ pre, ∃ w, ds.get (g, x) = some w ∧ pyLower w ≠ pyLower id) :
    scanOffsets ds g id tv (pre ++ l) fl = scanOffsets ds g id tv l fl := by
  induction pre with
  | nil => rfl
  | cons x rest ih =>
    obtain ⟨w, hw, hne⟩ := h x (by simp)
    simp only [List.cons_append, scanOffsets, hw]
    rw [if_neg hne]
    exact ih (fun y hy => h y (by simp [hy]))

/-- Claim C3, counterexample: the object holds the matching creator
"Flywheel" at offset 0x10 and an element whose value starts with the
tag value at block element 0x1001, yet `add_private_tag` returns the
earlier free slot 0x1000 and writes a new element there (the dataset
grows), because the scan checks "slot free" before "already tagged" —
refuting "returns that slot and writes no new element". -/
theorem tag_scan_prefers_free_slot_cex :
    add_private_tag freeBeforeTaggedDs 33 "Flywheel" "DICOM Send" =
      TagOutcome.slot (((33, 4096), "DICOM Send") :: freeBeforeTaggedDs) (33, 4096) ∧
    Dataset.get freeBeforeTaggedDs (33, 4097) = some "DICOM Send" ∧
    lowerStartsWith "DICOM Send" "DICOM Send" = true ∧
    ((33, 4096) : DcmTag) ≠ (33, 4097) ∧
    ((33, 4096), "DICOM Send") :: freeBeforeTaggedDs ≠ freeBeforeTaggedDs := by
  decide

/-- Claim C3 (amended): if the ascending creator scan reaches offset
`e` holding a creator that case-insensitively equals the identifier
with every earlier offset occupied by non-matching creators, and the
ascending scan of that creator's owned block reaches element `i` whose
value case-insensitively starts with the tag value with every earlier
block element occupied by a value that does not, then
`add_private_tag` returns slot `(g, i)` and writes no new element into
the object (the dataset is returned unchanged). -/
theorem add_private_tag_already_tagged
    (ds : Dataset) (g : Nat) (id tv : String) (pre suf bpre bsuf : List Nat) (e i : Nat)
    (hsplit : creatorOffsets = pre ++ e :: suf)
    (hpre : ∀ x ∈ pre, ∃ w, ds.get (g, x) = some w ∧ pyLower w ≠ pyLower id)
    (hcreator : ∃ v, ds.get (g, e) = some v ∧ pyLower v = pyLower id)
    (hbsplit : blockIdxs e = bpre ++ i :: bsuf)
    (hbpre : ∀ j ∈ bpre, ∃ w, ds.get (g, j) = some w ∧ lowerStartsWith w tv = false)
    (hi : ∃ w, ds.get (g, i) = some w ∧ lowerStartsWith w tv = true) :
    add_private_tag ds g id tv = TagOutcome.slot ds (g, i) := by
  obtain ⟨v, hv, hm⟩ := hcreator
  obtain ⟨w, hw, hsw⟩ := hi
  rw [add_private_tag, hsplit, scanOffsets_append ds g id tv pre _ false hpre]
  simp only [scanOffsets, hv]
  rw [if_pos hm, hbsplit, scanBlock_append ds g tv bpre _ hbpre]
  simp [scanBlock, hw, hsw]

set_option maxRecDepth 40000 in
/-- Witness for the amended C3 theorem: creator at 0x10, block already
tagged at its first element 0x1000. -/
theorem add_private_tag_already_tagged_witness :
    add_private_tag alreadyTaggedDs 33 "Flywheel" "DICOM Send" =
      TagOutcome.slot alreadyTaggedDs (33, 4096) :=
  add_private_tag_already_tagged alreadyTaggedDs 33 "Flywheel" "DICOM Send"
    [] ((List.range 238).map (fun i => 17 + i)) [] ((List.range 255).map (fun i => 4097 + i))
    16 4096
    (by decide) (by simp) ⟨"Flywheel", by decide⟩
    (by decide) (by simp) ⟨"DICOM Send", by decide⟩

theorem scanOffsets_changes (g : Nat) (id tv : String) :
    ∀ (offs : List Nat) (fl : Bool) (ds ds1 : Dataset) (t : DcmTag),
      scanOffsets ds g id tv offs fl = TagOutcome.slot ds1 t →
      ∀ x b : Nat, (x ≠ g ∨ (b ∉ offs ∧ b / 256 ∉ offs)) →
        ds1.get (x, b) = ds.get (x, b) := by
  intro offs
  induction offs with
  | nil =>
    intro fl ds ds1 t h
    cases fl <;> simp [scanOffsets] at h
  | cons e rest ih =>
    intro fl ds ds1 t h x b hside
    cases hg : ds.get (g, e) with
    | none =>
      simp only [scanOffsets, hg, TagOutcome.slot.injEq] at h
      obtain ⟨hds, ht⟩ := h
      rw [← hds]
      have hne2 : ((g, e * 256) : DcmTag) ≠ (x, b) := by
        rcases hside with hx | ⟨hb, hbd⟩
        · intro hh; injection hh with h1 h2; exact hx h1.symm
        · intro hh; injection hh with h1 h2
          refine hbd ?_
          have hq : b / 256 = e := by omega
          rw [hq]; exact List.mem_cons_self e rest
      have hne1 : ((g, e) : DcmTag) ≠ (x, b) := by
        rcases hside with hx | ⟨hb, hbd⟩
        · intro hh; injection hh with h1 h2; exact hx h1.symm
        · intro hh; injection hh with h1 h2
          refine hb ?_
          rw [← h2]; exact List.mem_cons_self e rest
      rw [Dataset.get_add_other _ _ _ _ hne2, Dataset.get_add_other _ _ _ _ hne1]
    | some v =>
      have hweak : x ≠ g ∨ (b ∉ rest ∧ b / 256 ∉ rest) := by
        rcases hside with hx | ⟨hb, hbd⟩
        · exact Or.inl hx
        · exact Or.inr ⟨fun hh => hb (List.mem_cons_of_mem _ hh),
            fun hh => hbd (List.mem_cons_of_mem _ hh)⟩
      by_cases hm : pyLower v = pyLower id
      · cases hsb : scanBlock ds g tv (blockIdxs e) with
        | some r =>
          simp only [scanOffsets, hg] at h
          rw [if_pos hm] at h
          simp only [hsb, TagOutcome.slot.injEq] at h
          obtain ⟨hds, ht⟩ := h
          obtain ⟨bpre, i, bsuf, hbsplit, hbpre, hti, hcase⟩ :=
            scanBlock_some_inv ds g tv (blockIdxs e) r.1 r.2 (by rw [hsb])
          have hi' : i ∈ blockIdxs e := by
            rw [hbsplit]; exact List.mem_append_right _ (List.mem_cons_self _ _)
          obtain ⟨k, hk, hik⟩ := (mem_blockIdxs e i).mp hi'
          rcases hcase with ⟨hfree, hds'⟩ | ⟨w, hw, hsw, hds'⟩
          · rw [← hds, hds']
            apply Dataset.get_add_other
            rcases hside with hx | ⟨hb, hbd⟩
            · intro hh; injection hh with h1 h2; exact hx h1.symm
            · intro hh; injection hh with h1 h2
              refine hbd ?_
              have hq : b / 256 = e := by omega
              rw [hq]; exact List.mem_cons_self e rest
          · rw [← hds, hds']
        | none =>
          simp only [scanOffsets, hg] at h
          rw [if_pos hm] at h
          simp only [hsb] at h
          exact ih true ds ds1 t h x b hweak
      · simp only [scanOffsets, hg] at h
        rw [if_neg hm] at h
        exact ih fl ds ds1 t h x b hweak

theorem scanOffsets_idem (g : Nat) (id tv : String) :
    ∀ offs : List Nat, (∀ e ∈ offs, 16 ≤ e ∧ e < 255) → offs.Nodup →
      ∀ (fl fl' : Bool) (ds ds1 : Dataset) (t : DcmTag),
        scanOffsets ds g id tv offs fl = TagOutcome.slot ds1 t →
        scanOffsets ds1 g id tv offs fl' = TagOutcome.slot ds1 t := by
  intro offs
  induction offs with
  | nil =>
    intro _ _ fl fl' ds ds1 t h
    cases fl <;> simp [scanOffsets] at h
  | cons e rest ih =>
    intro hbounds hnodup fl fl' ds ds1 t h
    have he : 16 ≤ e ∧ e < 255 := hbounds e (List.mem_cons_self e rest)
    have hrestb : ∀ x ∈ rest, 16 ≤ x ∧ x < 255 :=
      fun x hx => hbounds x (List.mem_cons_of_mem _ hx)
    have henr : e ∉ rest := (List.nodup_cons.mp hnodup).1
    have hrestn : rest.Nodup := (List.nodup_cons.mp hnodup).2
    have hzero_notin : (0 : Nat) ∉ rest := by
      intro h0
      have := hrestb 0 h0
      omega
    cases hg : ds.get (g, e) with
    | none =>
      simp only [scanOffsets, hg, TagOutcome.slot.injEq] at h
      obtain ⟨hds, ht⟩ := h
      have hgete : ds1.get (g, e) = some id := by
        rw [← hds]
        rw [Dataset.get_add_other _ _ _ _ (by intro hh; injection hh with h1 h2; omega)]
        exact Dataset.get_add_same ds (g, e) id
      have hgettag : ds1.get (g, e * 256) = some tv := by
        rw [← hds]; exact Dataset.get_add_same _ _ _
      simp only [scanOffsets, hgete, if_true]
      simp only [scanBlock_head_tagged ds1 g tv e hgettag]
      rw [← ht]
    | some v =>
      by_cases hm : pyLower v = pyLower id
      · cases hsb : scanBlock ds g tv (blockIdxs e) with
        | some r =>
          simp only [scanOffsets, hg] at h
          rw [if_pos hm] at h
          simp only [hsb, TagOutcome.slot.injEq] at h
          obtain ⟨hds, ht⟩ := h
          obtain ⟨bpre, i, bsuf, hbsplit, hbpre, hti, hcase⟩ :=
            scanBlock_some_inv ds g tv (blockIdxs e) r.1 r.2 (by rw [hsb])
          have hi' : i ∈ blockIdxs e := by
            rw [hbsplit]; exact List.mem_append_right _ (List.mem_cons_self _ _)
          obtain ⟨k, hk, hik⟩ := (mem_blockIdxs e i).mp hi'
          rcases hcase with ⟨hfree, hds'⟩ | ⟨w, hw, hsw, hds'⟩
          · have hds1 : ds1 = ds.add_new (g, i) tv := by rw [← hds, hds']
            have hgete2 : ds1.get (g, e) = some v := by
              rw [hds1,
                Dataset.get_add_other _ _ _ _ (by intro hh; injection hh with h1 h2; omega)]
              exact hg
            have hgeti : ds1.get (g, i) = some tv := by
              rw [hds1]; exact Dataset.get_add_same _ _ _
            have hinpre : i ∉ bpre := by
              have hnd : (blockIdxs e).Nodup := blockIdxs_nodup e
              rw [hbsplit] at hnd
              have hdisj := (List.nodup_append.mp hnd).2.2
              intro hip
              exact hdisj hip (List.mem_cons_self _ _)
            have hbpre1 : ∀ j ∈ bpre, ∃ w, ds1.get (g, j) = some w ∧
                lowerStartsWith w tv = false := by
              intro j hj
              obtain ⟨w, hw, hsw⟩ := hbpre j hj
              refine ⟨w, ?_, hsw⟩
              rw [hds1, Dataset.get_add_other _ _ _ _ (by
                intro hh; injection hh with h1 h2
                refine hinpre ?_
                rw [h2]; exact hj)]
              exact hw
            have hsb2 : scanBlock ds1 g tv (i :: bsuf) = some (ds1, (g, i)) := by
              simp [scanBlock, hgeti, lowerStartsWith_refl]
            simp only [scanOffsets, hgete2]
            rw [if_pos hm, hbsplit, scanBlock_append ds1 g tv bpre _ hbpre1]
            simp only [hsb2]
            rw [← ht, hti]
          · have hds1 : ds1 = ds := by rw [← hds, hds']
            subst hds1
            simp only [scanOffsets, hg]
            rw [if_pos hm]
            simp only [hsb, TagOutcome.slot.injEq]
            exact ⟨hds, ht⟩
        | none =>
          simp only [scanOffsets, hg] at h
          rw [if_pos hm] at h
          simp only [hsb] at h
          have hch := scanOffsets_changes g id tv rest true ds ds1 t h
          have hgete2 : ds1.get (g, e) = some v := by
            rw [hch g e (Or.inr ⟨henr, by
              have hq : e / 256 = 0 := by omega
              rw [hq]; exact hzero_notin⟩)]
            exact hg
          have hsb2 : scanBlock ds1 g tv (blockIdxs e) = none := by
            rw [scanBlock_none_iff]
            intro i hi
            obtain ⟨k, hk, hik⟩ := (mem_blockIdxs e i).mp hi
            obtain ⟨w, hw, hsw⟩ := (scanBlock_none_iff ds g tv (blockIdxs e)).mp hsb i hi
            refine ⟨w, ?_, hsw⟩
            rw [hch g i (Or.inr ⟨?_, ?_⟩)]
            · exact hw
            · intro hir
              have := hrestb i hir
              omega
            · have hq : i / 256 = e := by omega
              rw [hq]; exact henr
          simp only [scanOffsets, hgete2]
          rw [if_pos hm]
          simp only [hsb2]
          exact ih hrestb hrestn true true ds ds1 t h
      · simp only [scanOffsets, hg] at h
        rw [if_neg hm] at h
        have hch := scanOffsets_changes g id tv rest fl ds ds1 t h
        have hgete2 : ds1.get (g, e) = some v := by
          rw [hch g e (Or.inr ⟨henr, by
            have hq : e / 256 = 0 := by omega
            rw [hq]; exact hzero_notin⟩)]
          exact hg
        simp only [scanOffsets, hgete2]
        rw [if_neg hm]
        exact ih hrestb hrestn fl fl' ds ds1 t h

/-- Claim C1: `add_private_tag` is idempotent — if a call on an object
returns a slot together with the resulting object, then a second call
with the same (group, identifier, tag value) on that object returns
the very same (group, element) slot and leaves the object unchanged
(no new element is added). -/
theorem add_private_tag_idempotent (ds : Dataset) (g : Nat) (id tv : String)
    (ds1 : Dataset) (t : DcmTag)
    (h : add_private_tag ds g id tv = TagOutcome.slot ds1 t) :
    add_private_tag ds1 g id tv = TagOutcome.slot ds1 t :=
  scanOffsets_idem g id tv creatorOffsets creatorOffsets_mem_bounds creatorOffsets_nodup
    false false ds ds1 t h

/-- Witness for C1 at an initially untagged object. -/
theorem add_private_tag_idempotent_witness :
    add_private_tag ([] : Dataset) 33 "Flywheel" "DICOM Send" =
      TagOutcome.slot [((33, 4096), "DICOM Send"), ((33, 16), "Flywheel")] (33, 4096) ∧
    add_private_tag [((33, 4096), "DICOM Send"), ((33, 16), "Flywheel")] 33 "Flywheel" "DICOM Send" =
      TagOutcome.slot [((33, 4096), "DICOM Send"), ((33, 16), "Flywheel")] (33, 4096) :=
  ⟨by decide, add_private_tag_idempotent [] 33 "Flywheel" "DICOM Send" _ _ (by decide)⟩
